import Mathlib

/-!
Verification of the `dc_sync.yml` GitHub Actions workflow
(`.github/workflows/dc_sync.yml`): the CI job that syncs numbered tutorial
notebooks to an external content store.  Paths and filenames are modelled as
`List Char`; the workflow's data flow (trigger, change detection, string
outputs and if-expression truthiness, matrix fan-out, shell-level per-file
artifact naming, upload/delete requests) is embedded as executable functions
below, each annotated with the workflow lines it translates.
-/

namespace DCSync

/-- The notebook extension `.ipynb` as a character list. -/
def ipynbExt : List Char := ['.', 'i', 'p', 'y', 'n', 'b']

/-- The plain-text extension `.txt` as a character list. -/
def txtExt : List Char := ['.', 't', 'x', 't']

/-- The fixed output directory `text/` prepended by the uploader. -/
def textDir : List Char := ['t', 'e', 'x', 't', '/']

/-- The directory part `tutorials/` of the workflow glob. -/
def tutorialsDir : List Char := ['t', 'u', 't', 'o', 'r', 'i', 'a', 'l', 's', '/']

/-- A character list contains no path separator.  Used to model the fact that
the single-star glob fragment does not cross directory boundaries. -/
def noSlash (l : List Char) : Bool := l.all (fun c => c != '/')

/-- The glob fragment `*.ipynb` where `*` matches any (possibly empty)
slash-free run of characters. -/
def starIpynb : List Char → Bool
  | [] => false
  | c :: tl => ((c :: tl) == ipynbExt) || ((c != '/') && starIpynb tl)

/-- The filename part `[0-9]*.ipynb` of the workflow glob: one digit, then a
slash-free run, then the literal `.ipynb`. -/
def matchesName : List Char → Bool
  | [] => false
  | d :: tl => d.isDigit && starIpynb tl

/-- The glob `tutorials/[0-9]*.ipynb` from `dc_sync.yml` (the `on.push.paths`
filter, line 8, and the `files` input of the changed-files step, line 31). -/
def matchesGlob (p : List Char) : Bool :=
  decide (tutorialsDir <+: p) && matchesName (p.drop 10)

/-- The component of a path after its last `/` (the result of `basename` for
paths without a trailing slash). -/
def afterLastSlash (p : List Char) : List Char :=
  (p.reverse.takeWhile (fun c => c != '/')).reverse

/-- `stripSuf s suf` removes a trailing `suf` from `s`, as
`basename NAME SUFFIX` does: the suffix is removed only when it is a proper
trailing part of the name (GNU basename keeps `NAME` when it equals
`SUFFIX`). -/
def stripSuf (s suf : List Char) : List Char :=
  if suf <:+ s ∧ s ≠ suf then s.take (s.length - suf.length) else s

/-! ### Shell-level model of the `basename` steps

The `file-generator` and `extension-changer` steps interpolate
`${{ matrix.file }}` into the command line unquoted
(`basename ${{ matrix.file }} .ipynb`, lines 52 and 82), so after the
template substitution the shell splits the resulting text into words. -/

/-- Shell field-splitting whitespace. -/
def isWsp (c : Char) : Bool := c == ' ' || c == '\t' || c == '\n'

/-- Characters the shell treats specially outside quoting (so a path free of
them and of whitespace expands to a single literal word). -/
def isShellSpecial (c : Char) : Bool :=
  c == Char.ofNat 39 || c == '"' || c == '\\' || c == '$' || c == Char.ofNat 96 ||
  c == '*' || c == '?' || c == '[' || c == ']' || c == '(' || c == ')' ||
  c == '<' || c == '>' || c == '|' || c == '&' || c == ';' ||
  c == '#' || c == '~' || c == '\x7b' || c == '\x7d'

/-- Word accumulator for shell field splitting. -/
def wordsAux : List Char → List Char → List (List Char)
  | [], acc => if acc = [] then [] else [acc.reverse]
  | c :: tl, acc =>
    if isWsp c then
      if acc = [] then wordsAux tl [] else acc.reverse :: wordsAux tl []
    else wordsAux tl (c :: acc)

/-- Shell field splitting of interpolated text into words. -/
def tokenize (l : List Char) : List (List Char) := wordsAux l []

/-- Standard output of `basename` on a list of operands: one operand prints
its base name, two operands also strip the suffix, and any other operand
count is an error with empty standard output. -/
def basenameOut : List (List Char) → Option (List Char)
  | [n] => some (afterLastSlash n)
  | [n, suf] => some (stripSuf (afterLastSlash n) suf)
  | _ => none

/-- The `FILE` variable of the `file-generator` and `extension-changer`
steps as the shell actually computes it (line 52 / line 82): the matrix
value is substituted into the command text unquoted, split into words, and
passed to `basename` together with the `.ipynb` operand; on a `basename`
error the command substitution yields the empty string. -/
def fileGeneratorShell (p : List Char) : List Char :=
  (basenameOut (tokenize p ++ [ipynbExt])).getD [] ++ txtExt

/-- The artifact name the upload action receives: the `file-generator`
output `file=text/$FILE` (line 53), passed to the uploader at line 61. -/
def uploadArtifact (p : List Char) : List Char :=
  textDir ++ fileGeneratorShell p

/-- The artifact name the delete action receives: the `extension-changer`
output `file=$FILE` (line 83), passed to the deleter at line 90; unlike the
upload side, no `text/` prefix is applied. -/
def deleteArtifact (p : List Char) : List Char :=
  fileGeneratorShell p

/-! ### The workflow's data flow -/

/-- Status of one file in the push's diff, as classified by the
changed-files step (`Get changed files`, lines 24-31): added and modified
files feed `all_changed_files`, deleted files feed `deleted_files`. -/
inductive FileStatus
  | added
  | modified
  | deleted
deriving DecidableEq, Repr

/-- A push event: the files it touches, each with its diff status.  A git
diff lists every path once; theorems that need this state it as a `Nodup`
hypothesis on `files.map Prod.fst`. -/
structure Push where
  files : List (List Char × FileStatus)
deriving Repr

/-- `all_changed_files` of the changed-files step restricted to the glob:
the modified-or-added paths matching `tutorials/[0-9]*.ipynb` (lines 24-31,
consumed by `create_matrix` line 36). -/
def allChangedFiles (pu : Push) : List (List Char) :=
  (pu.files.filter
    (fun f => matchesGlob f.1 && !(f.2 == FileStatus.deleted))).map Prod.fst

/-- `deleted_files` of the changed-files step restricted to the glob
(lines 24-31, consumed by `create_matrix` line 37). -/
def deletedFiles (pu : Push) : List (List Char) :=
  (pu.files.filter
    (fun f => matchesGlob f.1 && (f.2 == FileStatus.deleted))).map Prod.fst

/-- A boolean rendered as the step-output string `true` or `false`:
the changed-files action emits its `any_changed` / `any_deleted` outputs as
strings, not booleans. -/
def boolString (b : Bool) : List Char :=
  if b then ['t', 'r', 'u', 'e'] else ['f', 'a', 'l', 's', 'e']

/-- The `any_changed` output string of the changed-files step, forwarded as
the `any-changed` job output (line 17). -/
def anyChangedOut (pu : Push) : List Char :=
  boolString (!(allChangedFiles pu).isEmpty)

/-- The `any_deleted` output string of the changed-files step, forwarded as
the `any-deleted` job output (line 18). -/
def anyDeletedOut (pu : Push) : List Char :=
  boolString (!(deletedFiles pu).isEmpty)

/-- GitHub Actions truthiness of a string-valued if-expression: the empty
string is falsy and every non-empty string — including `false` — is truthy. -/
def ghTruthy (s : List Char) : Bool := !s.isEmpty

/-- The `on.push.paths` trigger (lines 4-8): the workflow runs only when
the push touches (changes or deletes) at least one glob-matching path. -/
def workflowTriggers (pu : Push) : Bool :=
  pu.files.any (fun f => matchesGlob f.1)

/-- Whether the `modified` job starts: the workflow must have triggered and
its gate `if: needs.get-tutorials.outputs.any-changed` (line 41) must
evaluate truthy — which, the output being the string `true` or `false`,
it always does. -/
def modifiedJobRuns (pu : Push) : Bool :=
  workflowTriggers pu && ghTruthy (anyChangedOut pu)

/-- Whether the `deleted` job starts: the workflow must have triggered and
its gate `if: needs.get-tutorials.outputs.any-deleted` (line 69) must
evaluate truthy — which, the output being the string `true` or `false`,
it always does. -/
def deletedJobRuns (pu : Push) : Bool :=
  workflowTriggers pu && ghTruthy (anyDeletedOut pu)

/-- Write modes accepted by the upload action (`KEEP`, `OVERWRITE`,
`FAIL`); the workflow always passes `write-mode: OVERWRITE` (line 63). -/
inductive WriteMode
  | keep
  | overwrite
  | failMode
deriving DecidableEq, Repr

/-- One invocation of the `deepset-cloud-file-uploader` action (lines 57-64):
the matrix entry it was fanned out for, the artifact name it uploads to, and
its write mode. -/
structure UploadRequest where
  source : List Char
  file : List Char
  writeMode : WriteMode
deriving DecidableEq, Repr

/-- One invocation of the `deepset-cloud-file-deleter` action (lines 85-90):
the matrix entry it was fanned out for and the artifact name it deletes. -/
structure DeleteRequest where
  source : List Char
  file : List Char
deriving DecidableEq, Repr

/-- The upload requests issued by the `modified` job of a push: if the job
starts, one request per entry of the `modified-matrix` (strategy matrix,
line 44), each naming `text/$FILE` with mode `OVERWRITE`; an empty matrix
fans out into no step instances and hence no requests. -/
def modifiedJobRequests (pu : Push) : List UploadRequest :=
  if modifiedJobRuns pu then
    (allChangedFiles pu).map
      (fun p => ⟨p, uploadArtifact p, WriteMode.overwrite⟩)
  else []

/-- The delete requests issued by the `deleted` job of a push: if the job
starts, one request per entry of the `deleted-matrix` (strategy matrix,
line 72), each naming the unprefixed `$FILE`; an empty matrix fans out into
no step instances and hence no requests. -/
def deletedJobRequests (pu : Push) : List DeleteRequest :=
  if deletedJobRuns pu then
    (deletedFiles pu).map (fun p => ⟨p, deleteArtifact p⟩)
  else []

/-- Modelled from the spec: the external content store (deepset Cloud
workspace) is not part of this repository; per the spec's data model, an
artifact "is either present (one copy, latest content wins via overwrite) or
absent".  The store is a list of (artifact name, content) entries. -/
abbrev Store := List (List Char × List Char)

/-- The entries of a store whose artifact name is `k`. -/
def entriesFor (store : Store) (k : List Char) : List (List Char × List Char) :=
  store.filter (fun e => e.1 == k)

/-- Modelled from the spec: the effect of one `OVERWRITE`-mode upload on the
external store ("latest content wins via overwrite"): any existing copy
under the key is replaced by the uploaded content. -/
def applyOverwrite (store : Store) (key content : List Char) : Store :=
  store.filter (fun e => !(e.1 == key)) ++ [(key, content)]

/-- A store holds at most one copy per artifact key. -/
def oneCopyInv (store : Store) : Prop :=
  ∀ k, (entriesFor store k).length ≤ 1

/-! ### Structural lemmas about the naming functions -/

/-- A digit character is not a path separator. -/
theorem digit_ne_slash {c : Char} (h : c.isDigit = true) : (c != '/') = true := by
  rw [bne_iff_ne]
  intro he
  subst he
  exact absurd h (by decide)

/-- `starIpynb` recognises exactly the slash-free runs followed by the
literal `.ipynb`. -/
theorem starIpynb_iff (l : List Char) :
    starIpynb l = true ↔ ∃ mid, noSlash mid = true ∧ l = mid ++ ipynbExt := by
  induction l with
  | nil =>
    constructor
    · intro h
      exact absurd h (by decide)
    · rintro ⟨mid, -, he⟩
      simp [ipynbExt] at he
  | cons c tl ih =>
    simp only [starIpynb, Bool.or_eq_true, beq_iff_eq, Bool.and_eq_true, ih]
    constructor
    · rintro (he | ⟨hc, mid, hmid, htl⟩)
      · exact ⟨[], by simp [noSlash], by simpa using he⟩
      · exact ⟨c :: mid, by simp [noSlash] at hmid ⊢; exact ⟨bne_iff_ne.mp hc, hmid⟩,
          by simp [htl]⟩
    · rintro ⟨mid, hmid, he⟩
      match mid, he with
      | [], he => exact Or.inl (by simpa using he)
      | m :: ms, he =>
        simp only [List.cons_append, List.cons.injEq] at he
        obtain ⟨rfl, rfl⟩ := he
        simp only [noSlash, List.all_cons, Bool.and_eq_true] at hmid
        exact Or.inr ⟨hmid.1, ms, hmid.2, rfl⟩

/-- `takeWhile` runs through a slash-free block and stops at the slash. -/
theorem takeWhile_no_slash (l r : List Char) (h : noSlash l = true) :
    (l ++ '/' :: r).takeWhile (fun c => c != '/') = l := by
  induction l with
  | nil => simp
  | cons c tl ih =>
    simp only [noSlash, List.all_cons, Bool.and_eq_true] at h
    simp [List.takeWhile_cons, h.1, ih (by simpa [noSlash] using h.2)]

/-- The basename of a path whose final component is slash-free. -/
theorem afterLastSlash_append (pre rest : List Char) (h : noSlash rest = true) :
    afterLastSlash (pre ++ '/' :: rest) = rest := by
  unfold afterLastSlash
  rw [List.reverse_append, List.reverse_cons, List.append_assoc,
    List.singleton_append, takeWhile_no_slash _ _ (by simpa [noSlash] using h),
    List.reverse_reverse]

/-- `basename NAME SUFFIX` removes a proper trailing suffix. -/
theorem stripSuf_append (stem suf : List Char) (h : stem ≠ []) :
    stripSuf (stem ++ suf) suf = stem := by
  have hne : stem ++ suf ≠ suf := by
    intro he
    have hl := congrArg List.length he
    simp only [List.length_append] at hl
    exact h (List.eq_nil_of_length_eq_zero (by omega))
  rw [stripSuf, if_pos ⟨List.suffix_append stem suf, hne⟩]
  simp [List.length_append]

/-- The paths accepted by the workflow glob are exactly
`tutorials/<digit><slash-free run>.ipynb`. -/
theorem matchesGlob_iff (p : List Char) :
    matchesGlob p = true ↔
      ∃ d mid, d.isDigit = true ∧ noSlash mid = true ∧
        p = tutorialsDir ++ d :: (mid ++ ipynbExt) := by
  unfold matchesGlob
  simp only [Bool.and_eq_true, decide_eq_true_eq]
  constructor
  · rintro ⟨⟨rest, hrest⟩, hname⟩
    have hdrop : p.drop 10 = rest := by
      rw [← hrest]
      simp [tutorialsDir]
    rw [hdrop] at hname
    match rest, hname with
    | d :: tl, hname =>
      simp only [matchesName, Bool.and_eq_true] at hname
      obtain ⟨mid, hmid, rfl⟩ := (starIpynb_iff tl).mp hname.2
      exact ⟨d, mid, hname.1, hmid, by rw [← hrest]⟩
  · rintro ⟨d, mid, hd, hmid, rfl⟩
    refine ⟨⟨d :: (mid ++ ipynbExt), rfl⟩, ?_⟩
    have hdrop : (tutorialsDir ++ d :: (mid ++ ipynbExt)).drop 10
        = d :: (mid ++ ipynbExt) := by
      simp [tutorialsDir]
    rw [hdrop]
    simp only [matchesName, Bool.and_eq_true]
    exact ⟨hd, (starIpynb_iff _).mpr ⟨mid, hmid, rfl⟩⟩

/-- On a glob-matching path, the basename is `<digit><run>.ipynb` and the
`basename NAME .ipynb` computation strips the extension from it. -/
theorem glob_basename {p : List Char} (h : matchesGlob p = true) :
    ∃ d mid, d.isDigit = true ∧ noSlash mid = true ∧
      afterLastSlash p = (d :: mid) ++ ipynbExt ∧
      stripSuf (afterLastSlash p) ipynbExt = d :: mid := by
  obtain ⟨d, mid, hd, hmid, rfl⟩ := (matchesGlob_iff p).mp h
  have hsplit : tutorialsDir ++ d :: (mid ++ ipynbExt)
      = ['t', 'u', 't', 'o', 'r', 'i', 'a', 'l', 's']
        ++ '/' :: (d :: (mid ++ ipynbExt)) := by
    simp [tutorialsDir]
  have hrest : noSlash (d :: (mid ++ ipynbExt)) = true := by
    simp only [noSlash, List.all_cons, List.all_append, Bool.and_eq_true]
    exact ⟨digit_ne_slash hd, by simpa [noSlash] using hmid, by decide⟩
  have hbase : afterLastSlash (tutorialsDir ++ d :: (mid ++ ipynbExt))
      = (d :: mid) ++ ipynbExt := by
    rw [hsplit, afterLastSlash_append _ _ hrest]
    simp
  refine ⟨d, mid, hd, hmid, hbase, ?_⟩
  rw [hbase, stripSuf_append _ _ (by simp)]

/-! ### Lemmas about the gates -/

/-- After an overwrite upload the uploaded key holds exactly the uploaded
content, as its only copy. -/
theorem entriesFor_applyOverwrite_self (store : Store) (key content : List Char) :
    entriesFor (applyOverwrite store key content) key = [(key, content)] := by
  unfold entriesFor applyOverwrite
  rw [List.filter_append, List.filter_filter]
  simp

/-- An overwrite upload leaves every other key's entries unchanged. -/
theorem entriesFor_applyOverwrite_other (store : Store) (key content k : List Char)
    (hk : k ≠ key) :
    entriesFor (applyOverwrite store key content) k = entriesFor store k := by
  unfold entriesFor applyOverwrite
  rw [List.filter_append, List.filter_filter]
  have h1 : ((key, content) :: []).filter (fun e => e.1 == k) = [] := by
    simp [Ne.symm hk]
  rw [h1, List.append_nil]
  refine List.filter_congr (fun e _ => ?_)
  by_cases he : e.1 = k
  · subst he
    simp [hk]
  · simp [he]

/-- Overwrite uploads preserve the at-most-one-copy store invariant. -/
theorem oneCopyInv_applyOverwrite {store : Store} (hs : oneCopyInv store)
    (key content : List Char) : oneCopyInv (applyOverwrite store key content) := by
  intro k
  by_cases hk : k = key
  · subst hk
    rw [entriesFor_applyOverwrite_self]
    simp
  · rw [entriesFor_applyOverwrite_other _ _ _ _ hk]
    exact hs k

/-! ### Lemmas about shell field splitting -/

/-- Splitting a whitespace-free run yields the single accumulated word. -/
theorem wordsAux_no_wsp (l : List Char) (h : ∀ c ∈ l, isWsp c = false) :
    ∀ acc : List Char, acc ≠ [] ∨ l ≠ [] →
      wordsAux l acc = [acc.reverse ++ l] := by
  induction l with
  | nil =>
    intro acc hne
    have hacc : acc ≠ [] := by
      rcases hne with h1 | h1
      · exact h1
      · exact absurd rfl h1
    simp [wordsAux, hacc]
  | cons c tl ih =>
    intro acc _
    have hc : isWsp c = false := h c (List.mem_cons_self c tl)
    have htl : ∀ x ∈ tl, isWsp x = false := fun x hx => h x (List.mem_cons_of_mem c hx)
    rw [wordsAux, if_neg (by simp [hc]),
      ih htl (c :: acc) (Or.inl (by simp))]
    simp

/-- A nonempty whitespace-free value expands to exactly one shell word. -/
theorem tokenize_no_wsp {p : List Char} (hne : p ≠ [])
    (h : ∀ c ∈ p, isWsp c = false) : tokenize p = [p] := by
  rw [tokenize, wordsAux_no_wsp p h [] (Or.inr hne)]
  simp

/-- For a nonempty whitespace-free matrix value the shell really invokes
`basename <value> .ipynb`, so `FILE` is the basename with the extension
swapped. -/
theorem fileGeneratorShell_no_wsp {p : List Char} (hne : p ≠ [])
    (h : ∀ c ∈ p, isWsp c = false) :
    fileGeneratorShell p = stripSuf (afterLastSlash p) ipynbExt ++ txtExt := by
  rw [fileGeneratorShell, tokenize_no_wsp hne h]
  rfl

/-! ### Example pushes from the spec's scenarios -/

/-- A push modifying only `tutorials/22_Pipeline_with_PromptNode.ipynb`. -/
def push22 : Push :=
  ⟨[("tutorials/22_Pipeline_with_PromptNode.ipynb".toList, FileStatus.modified)]⟩

/-- A push deleting only `tutorials/07_RAG_Generator.ipynb`. -/
def push07 : Push :=
  ⟨[("tutorials/07_RAG_Generator.ipynb".toList, FileStatus.deleted)]⟩

/-- A push touching no file that matches the notebook glob. -/
def pushNone : Push := ⟨[("README.md".toList, FileStatus.modified)]⟩

/-- C1: contrary to the claim (and to the spec's intended skip), the job
gates never skip anything: on the delete-only push `push07` the
`any-changed` output is the non-empty string `false`, which is truthy in
the if-expression, so the `modified` job starts even though zero matching
files were changed — it merely fans out over an empty matrix and issues
zero upload requests; symmetrically the `deleted` job starts on the
modify-only push `push22`. -/
theorem fan_out_gating :
    allChangedFiles push07 = [] ∧
    anyChangedOut push07 = ['f', 'a', 'l', 's', 'e'] ∧
    ghTruthy (anyChangedOut push07) = true ∧
    modifiedJobRuns push07 = true ∧
    modifiedJobRequests push07 = [] ∧
    deletedFiles push22 = [] ∧
    deletedJobRuns push22 = true ∧
    deletedJobRequests push22 = [] := by
  decide

/-- C4 counterexample: on the glob-matching `tutorials/1 a.ipynb` the
program derives `.txt`, and swapping `.txt` back to `.ipynb` yields
`.txt.ipynb` (GNU basename keeps a name equal to the suffix), which is not
the original filename — the round trip fails. -/
theorem artifact_name_round_trip_cex :
    matchesGlob "tutorials/1 a.ipynb".toList = true ∧
    fileGeneratorShell "tutorials/1 a.ipynb".toList = txtExt ∧
    stripSuf (fileGeneratorShell "tutorials/1 a.ipynb".toList) txtExt ++ ipynbExt
      ≠ afterLastSlash "tutorials/1 a.ipynb".toList := by
  decide

/-- C4 (amended): the derivation is one pure function computed identically
by the uploader's and the deleter's steps, and for every glob-matching path
free of whitespace and shell-special characters the swap is reversible:
putting `.ipynb` back for the derived name's trailing `.txt` recovers the
original filename, as on the spec's `05_tutorial.ipynb` example. -/
theorem artifact_name_round_trip :
    (∀ p : List Char, deleteArtifact p = fileGeneratorShell p) ∧
    (∀ p : List Char, p ≠ [] →
      (∀ c ∈ p, isWsp c = false ∧ isShellSpecial c = false) →
      matchesGlob p = true →
      stripSuf (fileGeneratorShell p) txtExt ++ ipynbExt = afterLastSlash p) ∧
    fileGeneratorShell "tutorials/05_tutorial.ipynb".toList
      = "05_tutorial.txt".toList ∧
    stripSuf "05_tutorial.txt".toList txtExt ++ ipynbExt
      = "05_tutorial.ipynb".toList := by
  refine ⟨fun p => rfl, fun p hne h hp => ?_, by decide, by decide⟩
  obtain ⟨d, mid, -, -, hbase, hstrip⟩ := glob_basename hp
  rw [fileGeneratorShell_no_wsp hne (fun c hc => (h c hc).1), hstrip,
    stripSuf_append _ _ (by simp), hbase]

/-- Witness for C4: the round trip applied to `tutorials/12_LFQA.ipynb`. -/
theorem artifact_name_round_trip_witness :
    matchesGlob "tutorials/12_LFQA.ipynb".toList = true ∧
    stripSuf (fileGeneratorShell "tutorials/12_LFQA.ipynb".toList) txtExt ++ ipynbExt
      = afterLastSlash "tutorials/12_LFQA.ipynb".toList :=
  ⟨by decide,
    artifact_name_round_trip.2.1 "tutorials/12_LFQA.ipynb".toList
      (by decide) (by decide) (by decide)⟩

/-- The modified-or-added fan-out list has no duplicates when the push's
diff lists each path once. -/
theorem allChangedFiles_nodup (pu : Push)
    (hnd : (pu.files.map Prod.fst).Nodup) : (allChangedFiles pu).Nodup :=
  List.Nodup.sublist
    ((List.filter_sublist pu.files).map Prod.fst) hnd

/-- The deleted fan-out list has no duplicates when the push's diff lists
each path once. -/
theorem deletedFiles_nodup (pu : Push)
    (hnd : (pu.files.map Prod.fst).Nodup) : (deletedFiles pu).Nodup :=
  List.Nodup.sublist
    ((List.filter_sublist pu.files).map Prod.fst) hnd

/-- C7: the change detector's two lists are disjoint and duplicate-free
when the push's diff lists each path once. -/
theorem change_lists_disjoint (pu : Push)
    (hnd : (pu.files.map Prod.fst).Nodup) :
    (allChangedFiles pu).Nodup ∧ (deletedFiles pu).Nodup ∧
    (allChangedFiles pu).Disjoint (deletedFiles pu) := by
  refine ⟨allChangedFiles_nodup pu hnd, deletedFiles_nodup pu hnd, ?_⟩
  intro a ha hd
  obtain ⟨⟨p1, s1⟩, h1, rfl⟩ := List.mem_map.mp ha
  obtain ⟨⟨p2, s2⟩, h2, he2⟩ := List.mem_map.mp hd
  obtain ⟨h1m, h1p⟩ := List.mem_filter.mp h1
  obtain ⟨h2m, h2p⟩ := List.mem_filter.mp h2
  have hee : ((p1 : List Char), s1) = (p2, s2) :=
    List.inj_on_of_nodup_map hnd h1m h2m (by simpa using he2.symm)
  simp only [Bool.and_eq_true, Bool.not_eq_true', beq_iff_eq, beq_eq_false_iff_ne]
    at h1p h2p
  have hs12 : s1 = s2 := congrArg Prod.snd hee
  exact h1p.2 (hs12.trans h2p.2)

/-- A push both modifying and deleting a matching notebook. -/
def pushMix : Push :=
  ⟨[("tutorials/22_Pipeline_with_PromptNode.ipynb".toList, FileStatus.modified),
    ("tutorials/07_RAG_Generator.ipynb".toList, FileStatus.deleted)]⟩

/-- Witness for C7: the mixed push yields disjoint duplicate-free lists. -/
theorem change_lists_disjoint_witness :
    (pushMix.files.map Prod.fst).Nodup ∧
    ((allChangedFiles pushMix).Nodup ∧ (deletedFiles pushMix).Nodup ∧
      (allChangedFiles pushMix).Disjoint (deletedFiles pushMix)) :=
  ⟨by decide, change_lists_disjoint pushMix (by decide)⟩

/-- C8: every upload request carries `OVERWRITE` mode, and applying such an
upload to any store satisfying the one-copy invariant preserves it and
leaves the key holding exactly one copy with the uploaded content. -/
theorem overwrite_upload_single_copy (pu : Push) (r : UploadRequest)
    (hr : r ∈ modifiedJobRequests pu) (store : Store) (hs : oneCopyInv store)
    (content : List Char) :
    r.writeMode = WriteMode.overwrite ∧
    oneCopyInv (applyOverwrite store r.file content) ∧
    entriesFor (applyOverwrite store r.file content) r.file
      = [(r.file, content)] := by
  refine ⟨?_, oneCopyInv_applyOverwrite hs r.file content,
    entriesFor_applyOverwrite_self store r.file content⟩
  rw [modifiedJobRequests] at hr
  by_cases h : modifiedJobRuns pu = true
  · rw [if_pos h] at hr
    obtain ⟨q, -, rfl⟩ := List.mem_map.mp hr
    rfl
  · rw [if_neg h] at hr
    exact absurd hr (List.not_mem_nil r)

/-- The upload request of the example push `push22`. -/
def req22 : UploadRequest :=
  ⟨"tutorials/22_Pipeline_with_PromptNode.ipynb".toList,
    "text/22_Pipeline_with_PromptNode.txt".toList, WriteMode.overwrite⟩

/-- Witness for C8: the example push's request, applied to the empty
store. -/
theorem overwrite_upload_single_copy_witness :
    req22 ∈ modifiedJobRequests push22 ∧ oneCopyInv ([] : Store) ∧
    (req22.writeMode = WriteMode.overwrite ∧
      oneCopyInv (applyOverwrite ([] : Store) req22.file "x".toList) ∧
      entriesFor (applyOverwrite ([] : Store) req22.file "x".toList) req22.file
        = [(req22.file, "x".toList)]) :=
  ⟨by decide, fun k => by simp [entriesFor],
    overwrite_upload_single_copy push22 req22 (by decide) ([] : Store)
      (fun k => by simp [entriesFor]) "x".toList⟩

/-- C10: for a glob-matching matrix value free of whitespace and
shell-special characters, the unquoted interpolation still derives
`<stem>.txt` from the basename; but for a value containing whitespace the
command's argument is split and the derived name is not the stem followed
by `.txt`. -/
theorem unquoted_matrix_interpolation :
    (∀ p : List Char, p ≠ [] →
      (∀ c ∈ p, isWsp c = false ∧ isShellSpecial c = false) →
      matchesGlob p = true →
      ∃ stem, stem ≠ [] ∧ afterLastSlash p = stem ++ ipynbExt ∧
        fileGeneratorShell p = stem ++ txtExt) ∧
    (fileGeneratorShell "tutorials/1 a.ipynb".toList = txtExt ∧
      stripSuf (afterLastSlash "tutorials/1 a.ipynb".toList) ipynbExt ++ txtExt
        = "1 a.txt".toList ∧
      fileGeneratorShell "tutorials/1 a.ipynb".toList ≠ "1 a.txt".toList) := by
  refine ⟨fun p hne h hg => ?_, by decide, by decide, by decide⟩
  obtain ⟨d, mid, -, -, hbase, hstrip⟩ := glob_basename hg
  refine ⟨d :: mid, by simp, hbase, ?_⟩
  rw [fileGeneratorShell_no_wsp hne (fun c hc => (h c hc).1), hstrip]

/-- Witness for C10: the safe-path case applied to
`tutorials/12_LFQA.ipynb`. -/
theorem unquoted_matrix_interpolation_witness :
    "tutorials/12_LFQA.ipynb".toList ≠ [] ∧
    matchesGlob "tutorials/12_LFQA.ipynb".toList = true ∧
    ∃ stem, stem ≠ [] ∧
      afterLastSlash "tutorials/12_LFQA.ipynb".toList = stem ++ ipynbExt ∧
      fileGeneratorShell "tutorials/12_LFQA.ipynb".toList = stem ++ txtExt :=
  ⟨by decide, by decide,
    unquoted_matrix_interpolation.1 "tutorials/12_LFQA.ipynb".toList
      (by decide) (by decide) (by decide)⟩

end DCSync
